import Mathlib

/-!
Verification development for the mrecordlog storage engine
(multiplexed write-ahead log with rolling files, checksummed frames,
multiplexed records and in-memory queues).

The definitions below are a shallow embedding of the Rust sources:
machine integers (u16/u32/u64/usize) are modelled as Nat, byte buffers as
List Nat (each entry one byte value), refcounted file handles as explicit
external-reference counters, and fallible operations as Option / Except.
Source loops are embedded with explicit fuel chosen large enough (proved
where needed).  Each definition is annotated with the source file and
function it embeds.  Definitions come first, then the theorems.
-/

set_option maxRecDepth 10000

/-! ## Little-endian integer encoding helpers

Models `to_le_bytes` / `from_le_bytes` on k-byte unsigned integers, over
`List Nat` byte buffers. -/

/-- `leBytes k n` is the `k`-byte little-endian encoding of `n`
(low byte first); it models `to_le_bytes` on a `k`-byte integer. -/
def leBytes : Nat → Nat → List Nat
  | 0, _ => []
  | k + 1, n => n % 256 :: leBytes k (n / 256)

/-- `leDecode bs` reads a little-endian integer back from its bytes;
it models `from_le_bytes`. -/
def leDecode : List Nat → Nat
  | [] => 0
  | b :: rest => b + 256 * leDecode rest

deriving instance DecidableEq for Except

/-! ## Persistence policy (`src/multi_record_log.rs`)

`PersistAction` describes what a persist call must do; its documentation
says that `FlushAndFsync` means: the buffer will be flushed to the OS,
*and the OS will be asked to flush it to the disk*.  The crate's live
definitions are the ones inside `multi_record_log.rs` (lines 27-123):
`lib.rs` declares no `mod persist_policy;`, so the divergent copy of
`is_fsync` in the stray file `persist_policy.rs` is dead code that is
never compiled and is not modelled here. -/

/-- Embeds `enum PersistAction { Flush, FlushAndFsync }` from
`src/multi_record_log.rs` lines 27-34. -/
inductive PersistAction where
  | Flush
  | FlushAndFsync
deriving DecidableEq

/-- Embeds `PersistAction::is_fsync` from `src/multi_record_log.rs`
lines 37-40: `self == PersistAction::FlushAndFsync`. -/
def PersistAction.is_fsync (a : PersistAction) : Bool :=
  a == PersistAction.FlushAndFsync

/-- Embeds `enum PersistState` from `src/multi_record_log.rs` lines 71-80,
keeping each variant's `PersistAction`.  The `Instant`/`Duration` timing
fields of `OnDelay` (`next_sync`, `interval`) are elided: they carry wall
clock time and play no part in `action()`. -/
inductive PersistState where
  | OnAppend (action : PersistAction)
  | OnDelay (action : PersistAction)
  | OnRequest (action : PersistAction)
deriving DecidableEq

/-- Embeds `PersistState::action` (`src/multi_record_log.rs`
lines 102-108). -/
def PersistState.action : PersistState → PersistAction
  | .OnAppend action => action
  | .OnDelay action => action
  | .OnRequest action => action

/-- The `fsync` boolean that `MultiRecordLog::persist_and_maybe_fsync`
(`src/multi_record_log.rs` lines 400-402) passes to `persist`, i.e.
`self.next_persist.action().is_fsync()`; `persist` forwards it to
`RecordWriter::flush` and on to `RollingWriter::flush`, whose `fsync`
branch performs the `sync_data` (fdatasync) of the current file and the
directory. -/
def MultiRecordLog.persist_and_maybe_fsync_flag (next_persist : PersistState) : Bool :=
  next_persist.action.is_fsync

/-! ## File tracker and GC (`src/rolling/file_number.rs`, `src/rolling/directory.rs`)

A `FileNumber` is an `Arc<u64>`; `can_be_deleted` is
`Arc::strong_count == 1`, i.e. no clone of the handle exists outside the
tracker.  We model a tracked file as its number together with the count of
clones held outside the tracker (by the writer, by queue record metas, ...).
The tracker's `BTreeSet` is modelled as the list of tracked files in
ascending order, so the list head is `first()`. -/

/-- One file tracked by `FileTracker`: its number and the number of
`FileNumber` clones held outside the tracker itself. -/
structure TrackedFile where
  file_number : Nat
  external_refs : Nat
deriving DecidableEq

/-- Embeds `FileNumber::can_be_deleted` (`Arc::strong_count == 1`): true
exactly when no clone exists outside the tracker. -/
def TrackedFile.can_be_deleted (f : TrackedFile) : Bool :=
  f.external_refs == 0

/-- Embeds `FileTracker::take_first_unused` (`src/rolling/file_number.rs`
lines 23-38): if fewer than two files are tracked return `None` (the last
file is always considered used); otherwise pop and return the first file
iff it can be deleted. -/
def FileTracker.take_first_unused :
    List TrackedFile → Option (TrackedFile × List TrackedFile) :=
  fun files =>
    if files.length < 2 then none
    else
      match files with
      | [] => none
      | first :: rest =>
        if first.can_be_deleted then some (first, rest) else none

/-- The loop of `Directory::gc` (`src/rolling/directory.rs` lines 97-104):
`while let Some(file) = self.files.take_first_unused()` unlink that file.
The second component accumulates the numbers of the files unlinked from
disk, in unlink order.  The loop is given fuel; `Directory.gc` supplies
`files.length`, which is enough since every iteration shortens the list. -/
def Directory.gcGo : Nat → List TrackedFile → List Nat → List TrackedFile × List Nat
  | 0, files, removed => (files, removed)
  | fuel + 1, files, removed =>
    match FileTracker.take_first_unused files with
    | none => (files, removed)
    | some (f, rest) => Directory.gcGo fuel rest (removed ++ [f.file_number])

/-- Embeds `Directory::gc`: returns the remaining tracked files and the
list of file numbers whose wal files were unlinked from disk. -/
def Directory.gc (files : List TrackedFile) : List TrackedFile × List Nat :=
  Directory.gcGo files.length files []

/-! ## Multi-record payload encoding (`src/record.rs`, `MultiRecord`)

The payload of an `AppendRecords` operation is a concatenation of
`u64 position LE | u32 len LE | len bytes` items.  `MultiRecord` is the
iterator state over such a buffer. -/

/-- Embeds `struct MultiRecordCorruption`. -/
inductive MultiRecordCorruption where
  | mk
deriving DecidableEq

/-- Embeds `struct MultiRecord { buffer, byte_offset }` from `src/record.rs`. -/
structure MultiRecord where
  buffer : List Nat
  byte_offset : Nat
deriving DecidableEq

/-- Embeds `MultiRecord::new_unchecked`. -/
def MultiRecord.new_unchecked (buffer : List Nat) : MultiRecord :=
  ⟨buffer, 0⟩

/-- Embeds `<MultiRecord as Iterator>::next` (`src/record.rs` lines 255-285),
returning the produced item (if any) together with the successor state.
Note the two corruption branches assign `self.byte_offset` from the length
of the *local* slice (`buffer.len()` where `buffer` is the suffix being
examined), exactly as in the source. -/
def MultiRecord.next (m : MultiRecord) :
    Option (Except MultiRecordCorruption (Nat × List Nat)) × MultiRecord :=
  if m.byte_offset = m.buffer.length then (none, m)
  else
    let buffer := m.buffer.drop m.byte_offset
    if buffer.length < 12 then
      (some (Except.error MultiRecordCorruption.mk),
        { m with byte_offset := buffer.length })
    else
      let position := leDecode (buffer.take 8)
      let len := leDecode ((buffer.drop 8).take 4)
      let buffer2 := buffer.drop 12
      if buffer2.length < len then
        (some (Except.error MultiRecordCorruption.mk),
          { m with byte_offset := buffer2.length })
      else
        (some (Except.ok (position, buffer2.take len)),
          { m with byte_offset := m.byte_offset + 12 + len })

/-- The number of not-yet-decoded bytes of a `MultiRecord` iterator state. -/
def MultiRecord.remaining (m : MultiRecord) : Nat :=
  m.buffer.length - m.byte_offset

/-- The validation loop of `MultiRecord::new` (`for record in mrecord
{ record?; }`): pull items until `None` (success) or the first `Err`
(failure).  Fuel-indexed; `MultiRecord.new` passes `buffer.length + 1`,
which is shown sufficient in the theorems below. -/
def MultiRecord.validateGo : Nat → MultiRecord → Except MultiRecordCorruption Unit
  | 0, _ => Except.error MultiRecordCorruption.mk
  | fuel + 1, m =>
    match MultiRecord.next m with
    | (none, _) => Except.ok ()
    | (some (Except.error e), _) => Except.error e
    | (some (Except.ok _), m2) => MultiRecord.validateGo fuel m2

/-- Embeds `MultiRecord::new` (`src/record.rs` lines 202-214): validate the
whole buffer by iterating; on success reset the position and return the
iterator at offset 0. -/
def MultiRecord.new (buffer : List Nat) : Except MultiRecordCorruption MultiRecord :=
  match MultiRecord.validateGo (buffer.length + 1) ⟨buffer, 0⟩ with
  | Except.ok () => Except.ok ⟨buffer, 0⟩
  | Except.error e => Except.error e

/-- Collects the items of a `MultiRecord` iterator, failing (`none`) if any
item is an `Err` — the source then panics on `record.unwrap()` — or if the
fuel runs out (never happens from offset 0, see the items lemma). -/
def multiRecordOkItemsGo : Nat → MultiRecord → Option (List (Nat × List Nat))
  | 0, _ => none
  | fuel + 1, m =>
    match MultiRecord.next m with
    | (none, _) => some []
    | (some (Except.error _), _) => none
    | (some (Except.ok it), m2) => (multiRecordOkItemsGo fuel m2).map (it :: ·)

/-- All items produced by iterating a `MultiRecord`, with default fuel. -/
def multiRecordOkItems (m : MultiRecord) : Option (List (Nat × List Nat)) :=
  multiRecordOkItemsGo (m.buffer.length + 1) m

/-- Embeds `MultiRecord::serialize` / `serialize_with_pos`
(`src/record.rs` lines 223-248): the payloads are zipped with the
positions `position, position+1, ...` and each item is encoded as
`u64 position LE | u32 len LE | payload`. -/
def MultiRecord.serialize : List (List Nat) → Nat → List Nat
  | [], _ => []
  | payload :: rest, position =>
    leBytes 8 position ++
      (leBytes 4 payload.length ++ (payload ++ MultiRecord.serialize rest (position + 1)))

/-- The item list `(position, payload), (position+1, payload'), ...` that
serializing `payloads` at `position` represents. -/
def itemsOf : List (List Nat) → Nat → List (Nat × List Nat)
  | [], _ => []
  | payload :: rest, position => (position, payload) :: itemsOf rest (position + 1)

/-! ## Multiplexed records (`src/record.rs`, `MultiPlexedRecord`)

One record of the log: an operation tag, a position, a queue name and (for
`AppendRecords`) a multi-record payload.  Queue names are `&str` in the
source; here they are byte lists together with the UTF-8 validity check
performed by `std::str::from_utf8` during deserialization. -/

/-- Embeds `enum RecordType { Truncate = 1, Touch = 2, DeleteQueue = 3,
AppendRecords = 4 }`. -/
inductive RecordType where
  | Truncate
  | Touch
  | DeleteQueue
  | AppendRecords
deriving DecidableEq

/-- The `repr(u8)` discriminant of a `RecordType`. -/
def RecordType.to_u8 : RecordType → Nat
  | .Truncate => 1
  | .Touch => 2
  | .DeleteQueue => 3
  | .AppendRecords => 4

/-- Embeds `TryFrom<u8> for RecordType`. -/
def RecordType.try_from (code : Nat) : Option RecordType :=
  match code with
  | 1 => some RecordType.Truncate
  | 2 => some RecordType.Touch
  | 3 => some RecordType.DeleteQueue
  | 4 => some RecordType.AppendRecords
  | _ => none

/-- True iff `b` is a UTF-8 continuation byte (`0x80..=0xBF`). -/
def utf8Cont (b : Nat) : Bool :=
  128 ≤ b && b ≤ 191

/-- Models the success condition of `std::str::from_utf8`: the byte list is
valid UTF-8 (standard table-driven validation, including the surrogate and
overlong-encoding exclusions). -/
def utf8Valid : List Nat → Bool
  | [] => true
  | b :: rest =>
    if b ≤ 127 then utf8Valid rest
    else if b < 194 then false
    else if b ≤ 223 then
      match rest with
      | c1 :: rest2 => utf8Cont c1 && utf8Valid rest2
      | [] => false
    else if b ≤ 239 then
      match rest with
      | c1 :: c2 :: rest2 =>
        (if b = 224 then decide (160 ≤ c1 ∧ c1 ≤ 191)
         else if b = 237 then decide (128 ≤ c1 ∧ c1 ≤ 159)
         else utf8Cont c1) &&
          (utf8Cont c2 && utf8Valid rest2)
      | _ => false
    else if b ≤ 244 then
      match rest with
      | c1 :: c2 :: c3 :: rest2 =>
        (if b = 240 then decide (144 ≤ c1 ∧ c1 ≤ 191)
         else if b = 244 then decide (128 ≤ c1 ∧ c1 ≤ 143)
         else utf8Cont c1) &&
          (utf8Cont c2 && (utf8Cont c3 && utf8Valid rest2))
      | _ => false
    else false

/-- Embeds `enum MultiPlexedRecord` from `src/record.rs`: queue names are
byte lists (UTF-8 encoded `&str`), positions are u64 values. -/
inductive MultiPlexedRecord where
  | AppendRecords (queue : List Nat) (position : Nat) (records : MultiRecord)
  | Truncate (queue : List Nat) (truncate_end : Nat)
  | RecordPosition (queue : List Nat) (position : Nat)
  | DeleteQueue (queue : List Nat) (position : Nat)
deriving DecidableEq

/-- Embeds the free function `serialize` of `src/record.rs` lines 104-117:
push the tag byte, the u64 position, the u16 queue-name length, the queue
name bytes and the payload. -/
def serializeRecord (record_type : RecordType) (position : Nat)
    (queue : List Nat) (payload : List Nat) : List Nat :=
  record_type.to_u8 ::
    (leBytes 8 position ++ (leBytes 2 queue.length ++ (queue ++ payload)))

/-- Embeds `MultiPlexedRecord::serialize` (`src/record.rs` lines 119-150). -/
def MultiPlexedRecord.serialize : MultiPlexedRecord → List Nat
  | .AppendRecords queue position records =>
    serializeRecord RecordType.AppendRecords position queue records.buffer
  | .Truncate queue truncate_end =>
    serializeRecord RecordType.Truncate truncate_end queue []
  | .RecordPosition queue position =>
    serializeRecord RecordType.Touch position queue []
  | .DeleteQueue queue position =>
    serializeRecord RecordType.DeleteQueue position queue []

/-- Embeds `MultiPlexedRecord::deserialize` (`src/record.rs` lines 152-189):
split off the 11-byte header, parse tag / position / queue-name length,
check the queue name length and UTF-8 validity, and for `AppendRecords`
validate the payload with `MultiRecord::new`. -/
def MultiPlexedRecord.deserialize (buffer : List Nat) : Option MultiPlexedRecord :=
  if buffer.length < 11 then none
  else
    let header := buffer.take 11
    let body := buffer.drop 11
    match RecordType.try_from (header.headD 0) with
    | none => none
    | some enum_tag =>
      let position := leDecode ((header.drop 1).take 8)
      let queue_len := leDecode (header.drop 9)
      if body.length < queue_len then none
      else
        let queue := body.take queue_len
        let payload := body.drop queue_len
        if utf8Valid queue then
          match enum_tag with
          | RecordType.AppendRecords =>
            match MultiRecord.new payload with
            | Except.ok records =>
              some (MultiPlexedRecord.AppendRecords queue position records)
            | Except.error _ => none
          | RecordType.Truncate => some (MultiPlexedRecord.Truncate queue position)
          | RecordType.Touch => some (MultiPlexedRecord.RecordPosition queue position)
          | RecordType.DeleteQueue => some (MultiPlexedRecord.DeleteQueue queue position)
        else none

/-- Well-formedness of a `MultiPlexedRecord` value, i.e. the invariants the
Rust types give for free: the queue name is UTF-8 (it is a `&str`) and at
most `u16::MAX` bytes (asserted by `serialize`), positions fit in a u64,
and for `AppendRecords` the sub-record buffer validates and the iteration
offset is 0 (as produced by `MultiRecord::new`). -/
def MultiPlexedRecord.wf : MultiPlexedRecord → Bool
  | .AppendRecords queue position records =>
    decide (queue.length ≤ 65535) && (utf8Valid queue &&
      (decide (position < 2 ^ 64) && (decide (records.byte_offset = 0) &&
        (MultiRecord.new records.buffer).toOption.isSome)))
  | .Truncate queue truncate_end =>
    decide (queue.length ≤ 65535) && (utf8Valid queue && decide (truncate_end < 2 ^ 64))
  | .RecordPosition queue position =>
    decide (queue.length ≤ 65535) && (utf8Valid queue && decide (position < 2 ^ 64))
  | .DeleteQueue queue position =>
    decide (queue.length ≤ 65535) && (utf8Valid queue && decide (position < 2 ^ 64))

/-! ## In-memory queue (`src/mem/queue.rs`)

`MemQueue` holds the queue's concatenated payload bytes (the rolling buffer,
modelled at its logical byte-stream level), the position of the first live
record, and one `RecordMeta` per live record.  File handles are file
numbers; the `Arc` transfer of the "last record of each file holds the ref"
optimization is modelled on the stored data. -/

/-- Embeds `enum AppendError`.  `Future` is the variant referenced by
`MemQueue::append_record` in `src/mem/queue.rs` (the checked-in
`src/error.rs` predates it and lacks the variant). -/
inductive AppendError where
  | IoError
  | MissingQueue (queue : String)
  | Past
  | Future
deriving DecidableEq

/-- Embeds `struct RecordMeta { start_offset, file_number }`. -/
structure RecordMeta where
  start_offset : Nat
  file_number : Option Nat
deriving DecidableEq

/-- Embeds `struct MemQueue` from `src/mem/queue.rs`. -/
structure MemQueue where
  concatenated_records : List Nat
  start_position : Nat
  record_metas : List RecordMeta
deriving DecidableEq

/-- Embeds `MemQueue::with_next_position`. -/
def MemQueue.with_next_position (next_position : Nat) : MemQueue :=
  ⟨[], next_position, []⟩

/-- Embeds `MemQueue::next_position`:
`start_position + record_metas.len()`. -/
def MemQueue.next_position (q : MemQueue) : Nat :=
  q.start_position + q.record_metas.length

/-- Embeds `MemQueue::is_empty`. -/
def MemQueue.is_empty (q : MemQueue) : Bool :=
  q.record_metas.isEmpty

/-- Embeds `MemQueue::append_record` (`src/mem/queue.rs` lines 364-399):
reject non-`next` positions (`Future` if ahead, `Past` if behind) unless
`next_position == 0`; on the very first append move `start_position` to the
target; move the file handle forward off the previous meta when it refers
to the same file; push the new meta and extend the rolling buffer. -/
def MemQueue.append_record (q : MemQueue) (file_number : Nat)
    (target_position : Nat) (payload : List Nat) : Except AppendError MemQueue :=
  let next_position := q.next_position
  if next_position ≠ 0 ∧ next_position ≠ target_position then
    if target_position > next_position then Except.error AppendError.Future
    else Except.error AppendError.Past
  else
    let q1 :=
      if q.start_position = 0 ∧ q.record_metas = [] then
        { q with start_position := target_position }
      else q
    let metas :=
      match q1.record_metas.getLast? with
      | some record_meta =>
        if record_meta.file_number = some file_number then
          q1.record_metas.dropLast ++ [{ record_meta with file_number := none }]
        else q1.record_metas
      | none => q1.record_metas
    Except.ok
      { concatenated_records := q1.concatenated_records ++ payload,
        start_position := q1.start_position,
        record_metas := metas ++ [⟨q1.concatenated_records.length, some file_number⟩] }

/-- Embeds `MemQueue::position_to_idx`. -/
def MemQueue.position_to_idx (q : MemQueue) (position : Nat) : Option Nat :=
  if q.start_position > position then some 0
  else
    let idx := position - q.start_position
    if idx ≥ q.record_metas.length then none else some idx

/-- Embeds `MemQueue::truncate` (`src/mem/queue.rs` lines 456-478): no-op
when the position is before `start_position`; clear everything (releasing
the buffer) and set `start_position` to the old `next_position` when no
record lies strictly after the position; otherwise drop the leading metas,
renumber the kept offsets and drop the vacated buffer prefix. -/
def MemQueue.truncate (q : MemQueue) (truncate_up_to_pos : Nat) : MemQueue :=
  if q.start_position > truncate_up_to_pos then q
  else
    match q.position_to_idx (truncate_up_to_pos + 1) with
    | none =>
      { concatenated_records := [],
        start_position := q.next_position,
        record_metas := [] }
    | some first_record_to_keep =>
      let start_offset_to_keep := (q.record_metas.getD first_record_to_keep ⟨0, none⟩).start_offset
      { concatenated_records := q.concatenated_records.drop start_offset_to_keep,
        start_position := q.start_position + first_record_to_keep,
        record_metas :=
          (q.record_metas.drop first_record_to_keep).map
            (fun m => { m with start_offset := m.start_offset - start_offset_to_keep }) }

/-! ## Queue collection (`src/mem/queues.rs`)

`MemQueues` is a map from queue name to `MemQueue`, modelled as an
association list. -/

/-- Association-list lookup modelling `HashMap::get`. -/
def lookupFirst : List (String × MemQueue) → String → Option MemQueue
  | [], _ => none
  | (name, q) :: rest, queue =>
    if name = queue then some q else lookupFirst rest queue

/-- Association-list in-place update modelling mutation through
`HashMap::get_mut`. -/
def updateFirst : List (String × MemQueue) → String → MemQueue → List (String × MemQueue)
  | [], _, _ => []
  | (name, q) :: rest, queue, q2 =>
    if name = queue then (name, q2) :: rest else (name, q) :: updateFirst rest queue q2

/-- Embeds `MemQueues::append_record`: look the queue up (else
`MissingQueue`) and append to it. -/
def MemQueues.append_record (queues : List (String × MemQueue)) (queue : String)
    (file_number : Nat) (target_position : Nat) (payload : List Nat) :
    Except AppendError (List (String × MemQueue)) :=
  match lookupFirst queues queue with
  | none => Except.error (AppendError.MissingQueue queue)
  | some q =>
    (q.append_record file_number target_position payload).map
      (fun q2 => updateFirst queues queue q2)

/-- Embeds `MemQueues::truncate` (`src/mem/queues.rs` lines 153-161):
`None` if the queue is unknown, else truncate it and return the number of
records removed (the metas dropped by `MemQueue::truncate`). -/
def MemQueues.truncate (queues : List (String × MemQueue)) (queue_id : String)
    (position : Nat) : Option (Nat × List (String × MemQueue)) :=
  match lookupFirst queues queue_id with
  | none => none
  | some q =>
    let q2 := q.truncate position
    some (q.record_metas.length - q2.record_metas.length, updateFirst queues queue_id q2)

/-! ## Orchestrator append path (`src/multi_record_log.rs`)

State of `MultiRecordLog` as far as the append path observes it: the
in-memory queues, the sequence of records written to the wal, and the
writer's current file number.  Applying the persistence policy only flushes
buffers; it does not change this state and is elided. -/

/-- One record written to the record log: an
`AppendRecords { queue, position, records }` with its encoded multi-record
buffer. -/
structure WalEntry where
  queue : String
  position : Nat
  buffer : List Nat
deriving DecidableEq

/-- The append-path state of `MultiRecordLog`. -/
structure MultiRecordLogState where
  queues : List (String × MemQueue)
  wal : List WalEntry
  current_file : Nat
deriving DecidableEq

/-- The `for record in records` loop at the end of
`MultiRecordLog::append_records`: append each decoded `(position, payload)`
into the in-memory queue, tracking `max_position`; on the first error stop
and surface it (earlier items stay applied, as in the source). -/
def MultiRecordLog.memAppendLoop :
    MultiRecordLogState → String → Nat → List (Nat × List Nat) → Nat →
    MultiRecordLogState × Except AppendError (Option Nat)
  | st, _, _, [], max_position => (st, Except.ok (some max_position))
  | st, queue, file_number, (position, payload) :: rest, _ =>
    match MemQueues.append_record st.queues queue file_number position payload with
    | Except.error e => (st, Except.error e)
    | Except.ok queues2 =>
      MultiRecordLog.memAppendLoop { st with queues := queues2 } queue file_number
        rest position

/-- The tail of `MultiRecordLog::append_records` after the position checks
(`src/multi_record_log.rs` lines 274-305): serialize the batch; if the
encoded payload is empty return `None` without writing; otherwise write one
`AppendRecords` record to the log and replay the (just-serialized, hence
valid: the `getD []` models the `unwrap`) items into the in-memory queue. -/
def MultiRecordLog.appendRecordsGo (st : MultiRecordLogState) (queue : String)
    (position : Nat) (payloads : List (List Nat)) :
    MultiRecordLogState × Except AppendError (Option Nat) :=
  let file_number := st.current_file
  let buf := MultiRecord.serialize payloads position
  if buf.isEmpty then (st, Except.ok none)
  else
    let st2 := { st with wal := st.wal ++ [⟨queue, position, buf⟩] }
    let items := (multiRecordOkItems ⟨buf, 0⟩).getD []
    MultiRecordLog.memAppendLoop st2 queue file_number items position

/-- Embeds `MultiRecordLog::append_records` (`src/multi_record_log.rs`
lines 259-306): `MissingQueue` for unknown queues; with a caller-supplied
position, return `None` for the single-step idempotent replay
(`position + 1 == next_position`), fail `Past` when the position is
otherwise below `next_position`, and accept positions at or ahead of
`next_position`. -/
def MultiRecordLog.append_records (st : MultiRecordLogState) (queue : String)
    (position_opt : Option Nat) (payloads : List (List Nat)) :
    MultiRecordLogState × Except AppendError (Option Nat) :=
  match lookupFirst st.queues queue with
  | none => (st, Except.error (AppendError.MissingQueue queue))
  | some q =>
    let next_position := q.next_position
    match position_opt with
    | some position =>
      if position + 1 = next_position then (st, Except.ok none)
      else if position < next_position then (st, Except.error AppendError.Past)
      else MultiRecordLog.appendRecordsGo st queue position payloads
    | none => MultiRecordLog.appendRecordsGo st queue next_position payloads

/-! ## Frame layer (`src/frame/header.rs`, `src/frame/writer.rs`)

Frames are written through `BlockWrite`; `RollingWriter::write` asserts
that a write fits in the remaining bytes of the current 32 KiB block
(modelled as `none` on violation) and file rollover happens only at block
boundaries, so a flat byte offset taken modulo the block size models the
block position faithfully. -/

/-- Embeds `BLOCK_NUM_BYTES = 32_768`. -/
def BLOCK_NUM_BYTES : Nat := 32768

/-- Embeds `HEADER_LEN = 4 + 2 + 1`. -/
def HEADER_LEN : Nat := 7

/-- Embeds `enum FrameType { Full = 1, First = 2, Middle = 3, Last = 4 }`. -/
inductive FrameType where
  | Full
  | First
  | Middle
  | Last
deriving DecidableEq

/-- Embeds `FrameType::to_u8`. -/
def FrameType.to_u8 : FrameType → Nat
  | .Full => 1
  | .First => 2
  | .Middle => 3
  | .Last => 4

/-- One round of the reflected CRC-32 (IEEE) bit loop. -/
def crc32Round (crc : Nat) : Nat :=
  if crc % 2 = 1 then (crc / 2) ^^^ 0xEDB88320 else crc / 2

/-- Fold one byte into a CRC-32 state. -/
def crc32Byte (crc b : Nat) : Nat :=
  crc32Round^[8] (crc ^^^ b % 256)

/-- Embeds the `crc32` helper of `src/frame/header.rs` (crc32fast, i.e.
IEEE CRC-32 of the payload bytes). -/
def crc32 (data : List Nat) : Nat :=
  (data.foldl crc32Byte 0xFFFFFFFF) ^^^ 0xFFFFFFFF

/-- Embeds `struct Header { checksum, len, frame_type }`. -/
structure Header where
  checksum : Nat
  len : Nat
  frame_type : FrameType
deriving DecidableEq

/-- Embeds `Header::for_payload`: CRC of this frame's payload and its
length (the source asserts `payload.len() < BLOCK_NUM_BYTES`). -/
def Header.for_payload (frame_type : FrameType) (payload : List Nat) : Header :=
  { checksum := crc32 payload, len := payload.length, frame_type := frame_type }

/-- Embeds `Header::serialize`: 4 checksum bytes LE, 2 length bytes LE, one
frame-type byte. -/
def Header.serializeBytes (h : Header) : List Nat :=
  leBytes 4 h.checksum ++ (leBytes 2 h.len ++ [h.frame_type.to_u8])

/-- The block-writer state: total bytes written so far and the log of
`write` calls (start offset paired with the bytes written). -/
structure BlockWriterState where
  offset : Nat
  written : List (Nat × List Nat)
deriving DecidableEq

/-- Embeds `RollingWriter::num_bytes_remaining_in_block`:
`BLOCK_NUM_BYTES - offset % BLOCK_NUM_BYTES`. -/
def BlockWriterState.num_bytes_remaining_in_block (s : BlockWriterState) : Nat :=
  BLOCK_NUM_BYTES - s.offset % BLOCK_NUM_BYTES

/-- Embeds `RollingWriter::write` at the block level: empty writes are
no-ops; otherwise the source asserts
`buf.len() <= num_bytes_remaining_in_block()` (modelled as `none`) and
appends the bytes. -/
def BlockWriterState.write (s : BlockWriterState) (buf : List Nat) :
    Option BlockWriterState :=
  if buf.isEmpty then some s
  else if buf.length ≤ s.num_bytes_remaining_in_block then
    some { offset := s.offset + buf.length, written := s.written ++ [(s.offset, buf)] }
  else none

/-- Embeds `FrameWriter::write_frame` (`src/frame/writer.rs` lines 24-37):
if fewer than `HEADER_LEN` bytes remain in the current block, fill them
with zero bytes; then write the 7-byte header followed by the payload as a
single `write`. -/
def write_frame (s : BlockWriterState) (frame_type : FrameType)
    (payload : List Nat) : Option BlockWriterState :=
  let num_bytes_remaining_in_block := s.num_bytes_remaining_in_block
  let step1 :=
    if num_bytes_remaining_in_block < HEADER_LEN then
      s.write (List.replicate num_bytes_remaining_in_block 0)
    else some s
  match step1 with
  | none => none
  | some s1 =>
    s1.write ((Header.for_payload frame_type payload).serializeBytes ++ payload)

/-- The offset at which `write_frame` starts the frame itself: after the
zero padding when fewer than `HEADER_LEN` bytes remain in the block,
otherwise at the current offset. -/
def frameStart (s : BlockWriterState) : Nat :=
  if s.num_bytes_remaining_in_block < HEADER_LEN then
    s.offset + s.num_bytes_remaining_in_block
  else s.offset

/-- Embeds `FrameWriter::max_writable_frame_length`
(`src/frame/writer.rs` lines 49-57). -/
def max_writable_frame_length (s : BlockWriterState) : Nat :=
  let available_num_bytes_in_block := s.num_bytes_remaining_in_block
  if available_num_bytes_in_block ≥ HEADER_LEN then
    available_num_bytes_in_block - HEADER_LEN
  else
    BLOCK_NUM_BYTES - HEADER_LEN

/-! ## Replay loop of `open` (`src/multi_record_log.rs` lines 141-146)

Each iteration of the replay loop reads one record and dispatches on the
result.  The source is
`let Ok(record) = record_reader.read_record().await else
{ warn!("Detected corrupted record: ..."); continue; }`
followed by `if let Some(record) ... else break`. -/

/-- Embeds `enum ReadRecordError { IoError, Corruption }` (the io::Error
payload is dropped). -/
inductive ReadRecordError where
  | IoError
  | Corruption
deriving DecidableEq

/-- What one iteration of the replay loop does with the result of
`read_record`: handle a record, finish (break), log a warning and continue,
or surface an error out of `open`.  The codomain lists `surface` so that
the spec's claim about it is statable; the source never takes it. -/
inductive ReplayAction (R : Type) where
  | handle (record : R)
  | finish
  | warnAndContinue
  | surface (e : ReadRecordError)
deriving DecidableEq

/-- Embeds the dispatch of the replay loop body of
`MultiRecordLog::open_with_prefs` on the result of `read_record`:
any `Err` — `Corruption` or `IoError` alike — hits the
`else { warn!(...); continue; }` arm. -/
def openReplayDispatch {R : Type} :
    Except ReadRecordError (Option R) → ReplayAction R
  | Except.ok (some record) => ReplayAction.handle record
  | Except.ok none => ReplayAction.finish
  | Except.error _ => ReplayAction.warnAndContinue

/-! ## Concrete states used by counterexamples and witnesses -/

/-- A fresh queue as created by `create_queue` (start position 0, empty). -/
def freshQueue : MemQueue := ⟨[], 0, []⟩

/-- A log with the single fresh queue named w. -/
def freshState : MultiRecordLogState := ⟨[(("w"), freshQueue)], [], 0⟩

/-- A queue holding two records (positions 0 and 1), so next_position = 2. -/
def pastQueue : MemQueue := ⟨[5, 6], 0, [⟨0, some 0⟩, ⟨1, none⟩]⟩

/-- A log with the single queue named p holding two records. -/
def pastState : MultiRecordLogState := ⟨[(("p"), pastQueue)], [], 0⟩

/-- A queue holding one record at position 0, so next_position = 1. -/
def skipAheadQueue : MemQueue := ⟨[104], 0, [⟨0, some 0⟩]⟩

/-- A log with the single queue named q holding one record. -/
def skipAheadState : MultiRecordLogState := ⟨[(("q"), skipAheadQueue)], [], 3⟩

/-- An empty queue whose start_position is 5. -/
def emptyQueueAt5 : MemQueue := ⟨[], 5, []⟩

/-- A queue collection for the truncate witness: one queue named a with one
record at position 3. -/
def truncQueues : List (String × MemQueue) := [(("a"), ⟨[9], 3, [⟨0, some 0⟩]⟩)]

/-- A 12-byte multi-record buffer claiming one sub-record of length 1 with
no payload bytes behind it (`pos = 0`, `len = 1`). -/
def shortMultiRecord : MultiRecord :=
  ⟨[0, 0, 0, 0, 0, 0, 0, 0, 1, 0, 0, 0], 0⟩

/-!
# Theorems
-/

/-! ### Encoding helpers -/

theorem leBytes_length (k n : Nat) : (leBytes k n).length = k := by
  induction k generalizing n with
  | zero => rfl
  | succ k ih => simp [leBytes, ih]

theorem leDecode_leBytes (k n : Nat) (h : n < 256 ^ k) :
    leDecode (leBytes k n) = n := by
  induction k generalizing n with
  | zero =>
    simp [leBytes, leDecode]
    omega
  | succ k ih =>
    have hdiv : n / 256 < 256 ^ k := by
      rw [Nat.div_lt_iff_lt_mul (by norm_num)]
      calc n < 256 ^ (k + 1) := h
      _ = 256 ^ k * 256 := by ring
    simp only [leBytes, leDecode, ih (n / 256) hdiv]
    omega

/-! ### C2: the GC sweep -/

theorem FileTracker.take_first_unused_some {files : List TrackedFile}
    {f : TrackedFile} {rest : List TrackedFile}
    (h : FileTracker.take_first_unused files = some (f, rest)) :
    files = f :: rest ∧ f.external_refs = 0 ∧ 2 ≤ files.length := by
  unfold FileTracker.take_first_unused at h
  by_cases hlen : files.length < 2
  · rw [if_pos hlen] at h
    exact absurd h (by simp)
  · rw [if_neg hlen] at h
    cases files with
    | nil => simp at h
    | cons first rest2 =>
      dsimp only at h
      by_cases hdel : first.can_be_deleted
      · rw [if_pos hdel] at h
        simp only [Option.some.injEq, Prod.mk.injEq] at h
        obtain ⟨hf, hr⟩ := h
        subst hf
        subst hr
        refine ⟨rfl, ?_, Nat.le_of_not_lt hlen⟩
        unfold TrackedFile.can_be_deleted at hdel
        simpa using hdel
      · rw [if_neg hdel] at h
        simp at h

theorem getLast?_append_of_ne_nil {α : Type} (l₁ : List α) {l₂ : List α}
    (h : l₂ ≠ []) : (l₁ ++ l₂).getLast? = l₂.getLast? := by
  induction l₁ with
  | nil => simp
  | cons a l ih =>
    rw [List.cons_append]
    cases hl : l ++ l₂ with
    | nil =>
      rcases List.append_eq_nil.mp hl with ⟨-, h2⟩
      exact absurd h2 h
    | cons b t =>
      rw [List.getLast?_cons_cons, ← hl, ih]

theorem Directory.gcGo_spec (fuel : Nat) :
    ∀ (files : List TrackedFile) (acc : List Nat),
      ∃ pre,
        files = pre ++ (Directory.gcGo fuel files acc).1 ∧
        (Directory.gcGo fuel files acc).2 = acc ++ pre.map TrackedFile.file_number ∧
        (∀ f ∈ pre, f.external_refs = 0) ∧
        (files ≠ [] → (Directory.gcGo fuel files acc).1 ≠ []) := by
  induction fuel with
  | zero =>
    intro files acc
    exact ⟨[], by simp [Directory.gcGo]⟩
  | succ fuel ih =>
    intro files acc
    match hfu : FileTracker.take_first_unused files with
    | none =>
      refine ⟨[], ?_⟩
      simp [Directory.gcGo, hfu]
    | some (f, rest) =>
      obtain ⟨hfiles, hrefs, hlen⟩ := FileTracker.take_first_unused_some hfu
      have hrest : rest ≠ [] := by
        rw [hfiles] at hlen
        simp only [List.length_cons] at hlen
        have : 0 < rest.length := by omega
        exact List.ne_nil_of_length_pos this
      obtain ⟨pre, h1, h2, h3, h4⟩ := ih rest (acc ++ [f.file_number])
      refine ⟨f :: pre, ?_, ?_, ?_, ?_⟩
      · simp only [Directory.gcGo, hfu]
        rw [hfiles, List.cons_append, ← h1]
      · simp only [Directory.gcGo, hfu]
        rw [h2]
        simp
      · intro g hg
        rcases List.mem_cons.mp hg with hg | hg
        · rw [hg]; exact hrefs
        · exact h3 g hg
      · intro _
        simp only [Directory.gcGo, hfu]
        exact h4 hrest

/-- C2: Running the GC sweep removes exactly an oldest contiguous prefix of
tracked files, every removed file had no outstanding external reference on
its handle, the removed files are the ones unlinked from disk, at least one
file always remains, any file with an outstanding external reference
(in particular the write file, whose handle the writer clones) stays
tracked, and the last tracked file stays tracked. -/
theorem C2_gc_sweep (files : List TrackedFile) :
    (∃ pre,
        files = pre ++ (Directory.gc files).1 ∧
        (Directory.gc files).2 = pre.map TrackedFile.file_number ∧
        ∀ f ∈ pre, f.external_refs = 0) ∧
    (files ≠ [] → (Directory.gc files).1 ≠ []) ∧
    (∀ f ∈ files, 0 < f.external_refs → f ∈ (Directory.gc files).1) ∧
    (∀ f, files.getLast? = some f → f ∈ (Directory.gc files).1) := by
  obtain ⟨pre, h1, h2, h3, h4⟩ := Directory.gcGo_spec files.length files []
  have hgc1 : (Directory.gc files).1 = (Directory.gcGo files.length files []).1 := rfl
  have hgc2 : (Directory.gc files).2 = (Directory.gcGo files.length files []).2 := rfl
  refine ⟨⟨pre, by rw [hgc1]; exact h1, by rw [hgc2, h2]; simp, h3⟩, ?_, ?_, ?_⟩
  · intro hne
    rw [hgc1]
    exact h4 hne
  · intro f hf hpos
    rw [hgc1]
    rw [h1] at hf
    rcases List.mem_append.mp hf with hf | hf
    · have := h3 f hf
      omega
    · exact hf
  · intro f hf
    rw [hgc1]
    have hne : (Directory.gcGo files.length files []).1 ≠ [] := by
      apply h4
      intro hnil
      rw [hnil] at hf
      simp at hf
    have heq : files.getLast? = (Directory.gcGo files.length files []).1.getLast? := by
      conv_lhs => rw [h1]
      exact getLast?_append_of_ne_nil pre hne
    rw [heq] at hf
    obtain ⟨hne2, hval⟩ := List.mem_getLast?_eq_getLast (show f ∈ _ from hf)
    rw [hval]
    exact List.getLast_mem hne2

/-- Witness for C2 at a concrete tracker state: three files, the middle one
holding two outstanding references. -/
theorem C2_witness :
    ([⟨0, 0⟩, ⟨1, 2⟩, ⟨2, 0⟩] : List TrackedFile) ≠ [] ∧
    (Directory.gc [⟨0, 0⟩, ⟨1, 2⟩, ⟨2, 0⟩]).1 ≠ [] :=
  ⟨by decide, (C2_gc_sweep [⟨0, 0⟩, ⟨1, 2⟩, ⟨2, 0⟩]).2.1 (by decide)⟩

/-! ### C1: the persist-action fsync predicate -/

/-- C1: the `is_fsync` predicate that decides whether `persist` performs
the fdatasync step returns `true` exactly when the action is
`FlushAndFsync`; consequently the `fsync` flag that
`persist_and_maybe_fsync` passes to `persist` — which triggers the
fdatasync of the current file and the directory in addition to the flush —
is `true` exactly when the pending persist action is `FlushAndFsync`. -/
theorem C1_is_fsync_iff_flush_and_fsync :
    (∀ a : PersistAction, a.is_fsync = true ↔ a = PersistAction.FlushAndFsync) ∧
    (∀ next_persist : PersistState,
      MultiRecordLog.persist_and_maybe_fsync_flag next_persist = true ↔
        next_persist.action = PersistAction.FlushAndFsync) := by
  constructor
  · intro a
    cases a <;> decide
  · intro next_persist
    cases next_persist <;> rename_i a <;> cases a <;> decide

/-! ### C4: appends strictly in the past fail with Past before any write -/

/-- C4: for an existing queue, an append with a caller-supplied position
strictly below `next_position` that is not the single-step replay
(`position + 1 ≠ next_position`) fails with `Past`, and leaves the whole
state — the in-memory queues and the on-disk log — untouched, since the
check precedes the record write. -/
theorem C4_append_past (st : MultiRecordLogState) (queue : String) (position : Nat)
    (payloads : List (List Nat)) (q : MemQueue)
    (hq : lookupFirst st.queues queue = some q)
    (hlt : position < q.next_position)
    (hne : position + 1 ≠ q.next_position) :
    MultiRecordLog.append_records st queue (some position) payloads =
      (st, Except.error AppendError.Past) := by
  unfold MultiRecordLog.append_records
  rw [hq]
  dsimp only
  rw [if_neg hne, if_pos hlt]

/-- Witness for C4: appending at position 0 to a queue whose next position
is 2. -/
theorem C4_witness :
    lookupFirst pastState.queues ("p") = some pastQueue ∧
    0 < pastQueue.next_position ∧
    0 + 1 ≠ pastQueue.next_position ∧
    MultiRecordLog.append_records pastState ("p") (some 0) [[1]] =
      (pastState, Except.error AppendError.Past) :=
  ⟨by decide, by decide, by decide,
    C4_append_past pastState ("p") 0 [[1]] pastQueue (by decide) (by decide) (by decide)⟩

/-! ### C5: appends ahead of next_position are rejected by the queue -/

/-- C5: evaluating the code at the failing input.  On a queue holding one
record at position 0 (`next_position = 1`), `append_records` with the
caller-supplied position 2 passes the orchestrator's checks and writes the
`AppendRecords` record to the log, but `MemQueue::append_record` then
rejects the ahead-of-next position with `AppendError::Future`
(`next_position != 0 && next_position != target_position` with
`target_position > next_position`), so the whole call errors instead of
advancing the queue to position 3. -/
theorem C5_append_ahead_rejected :
    MultiRecordLog.append_records skipAheadState ("q") (some 2) [[7]] =
      (⟨skipAheadState.queues,
          [⟨("q"), 2, MultiRecord.serialize [[7]] 2⟩], 3⟩,
        Except.error AppendError.Future) := by
  decide

/-! ### C6: truncate at or beyond the last position -/

/-- C6 counterexample: on an empty queue with `start_position = 5`,
`truncate(7)` (a position at or beyond `start_position`, as the claim
covers) leaves `start_position` at 5 — the old `next_position` — instead of
setting it to `7 + 1` as the claim states. -/
theorem C6_counterexample :
    (MemQueue.truncate emptyQueueAt5 7).start_position ≠ 7 + 1 := by
  decide

theorem updateFirst_lookup_self (queues : List (String × MemQueue))
    (queue_id : String) (q : MemQueue)
    (h : lookupFirst queues queue_id = some q) :
    updateFirst queues queue_id q = queues := by
  induction queues with
  | nil => rfl
  | cons p rest ih =>
    obtain ⟨name, x⟩ := p
    unfold lookupFirst at h
    unfold updateFirst
    by_cases hn : name = queue_id
    · rw [if_pos hn] at h ⊢
      have : x = q := by
        have := h
        simp only [Option.some.injEq] at this
        exact this
      rw [this]
    · rw [if_neg hn] at h ⊢
      rw [ih h]

/-- C6 amended: truncating at a position `pos` with
`start_position ≤ pos` and `next_position ≤ pos + 1` (i.e. `pos` at or
beyond the last position; on an empty queue, at or beyond
`start_position`) removes all records, releases the queue's buffer,
returns the number of records removed, and sets `start_position` to the
queue's *previous* `next_position` — which equals `pos + 1` exactly when
the queue is non-empty and `pos` is its last position; truncating below
`start_position` is a no-op returning 0. -/
theorem C6_truncate_amended (queues : List (String × MemQueue)) (queue_id : String)
    (q : MemQueue) (pos : Nat)
    (hq : lookupFirst queues queue_id = some q) :
    (q.start_position ≤ pos → q.next_position ≤ pos + 1 →
      MemQueues.truncate queues queue_id pos =
        some (q.record_metas.length,
          updateFirst queues queue_id ⟨[], q.next_position, []⟩)) ∧
    (pos < q.start_position →
      MemQueues.truncate queues queue_id pos = some (0, queues)) := by
  constructor
  · intro h1 h2
    have hclear : q.truncate pos = ⟨[], q.next_position, []⟩ := by
      unfold MemQueue.truncate
      rw [if_neg (by omega)]
      have hidx : q.position_to_idx (pos + 1) = none := by
        unfold MemQueue.position_to_idx
        rw [if_neg (by omega)]
        dsimp only
        rw [if_pos (by unfold MemQueue.next_position at h2; omega)]
      rw [hidx]
    unfold MemQueues.truncate
    rw [hq]
    dsimp only
    rw [hclear]
    simp
  · intro h
    have hnoop : q.truncate pos = q := by
      unfold MemQueue.truncate
      rw [if_pos (by omega)]
    unfold MemQueues.truncate
    rw [hq]
    dsimp only
    rw [hnoop, Nat.sub_self, updateFirst_lookup_self queues queue_id q hq]

/-- Witness for C6 at a concrete queue: one record at position 3, truncated
at position 5 (beyond the last position). -/
theorem C6_witness :
    lookupFirst truncQueues ("a") = some ⟨[9], 3, [⟨0, some 0⟩]⟩ ∧
    (⟨[9], 3, [⟨0, some 0⟩]⟩ : MemQueue).start_position ≤ 5 ∧
    (⟨[9], 3, [⟨0, some 0⟩]⟩ : MemQueue).next_position ≤ 5 + 1 ∧
    MemQueues.truncate truncQueues ("a") 5 =
      some ((⟨[9], 3, [⟨0, some 0⟩]⟩ : MemQueue).record_metas.length,
        updateFirst truncQueues ("a")
          ⟨[], (⟨[9], 3, [⟨0, some 0⟩]⟩ : MemQueue).next_position, []⟩) := by
  refine ⟨by decide, by decide, by decide, ?_⟩
  exact (C6_truncate_amended truncQueues ("a") ⟨[9], 3, [⟨0, some 0⟩]⟩ 5
    (by decide)).1 (by decide) (by decide)

/-! ### C7: the replay loop swallows every read error -/

/-- C7 counterexample: in the replay loop of `open_with_prefs`, a
`read_record` failure with `IoError` is *not* surfaced out of `open`; it
hits the same `warn-and-continue` arm as `Corruption`. -/
theorem C7_counterexample :
    @openReplayDispatch Nat (Except.error ReadRecordError.IoError) ≠
      ReplayAction.surface ReadRecordError.IoError := by
  decide

/-- C7 amended: during the replay loop of `open`, *every* error returned by
`read_record` — `Corruption` and `IoError` alike — is swallowed: the loop
logs a warning and continues, never surfacing the error out of `open`
(I/O errors abort `open` only when opening the rolling reader or promoting
it to a writer). -/
theorem C7_replay_swallows_all_errors :
    ∀ (R : Type) (e : ReadRecordError),
      @openReplayDispatch R (Except.error e) = ReplayAction.warnAndContinue := by
  intro R e
  rfl

/-! ### C10: iterator progress and termination of MultiRecord::new -/

/-- C10 counterexample: on the 12-byte buffer encoding one sub-record of
claimed length 1 with no payload behind it, `next` neither returns `None`
nor strictly decreases the remaining undecoded bytes (it reports a
corruption and leaves the state unchanged, `byte_offset` staying 0). -/
theorem C10_counterexample :
    ¬ ((MultiRecord.next shortMultiRecord).1 = none ∨
      (MultiRecord.next shortMultiRecord).2.remaining < shortMultiRecord.remaining) := by
  decide

theorem MultiRecord.next_ok_remaining {m : MultiRecord}
    {it : Nat × List Nat} {m2 : MultiRecord}
    (h : MultiRecord.next m = (some (Except.ok it), m2)) :
    m2.remaining < m.remaining := by
  unfold MultiRecord.next at h
  by_cases h1 : m.byte_offset = m.buffer.length
  · rw [if_pos h1] at h
    simp at h
  · rw [if_neg h1] at h
    dsimp only at h
    by_cases h2 : (m.buffer.drop m.byte_offset).length < 12
    · rw [if_pos h2] at h
      simp at h
    · rw [if_neg h2] at h
      by_cases h3 : ((m.buffer.drop m.byte_offset).drop 12).length <
          leDecode (((m.buffer.drop m.byte_offset).drop 8).take 4)
      · rw [if_pos h3] at h
        simp at h
      · rw [if_neg h3] at h
        simp only [Prod.mk.injEq] at h
        obtain ⟨-, hm2⟩ := h
        rw [← hm2]
        unfold MultiRecord.remaining
        simp only [List.length_drop] at h2 h3
        dsimp only
        omega

theorem MultiRecord.validateGo_congr :
    ∀ (f g : Nat) (m : MultiRecord), m.remaining < f → m.remaining < g →
      MultiRecord.validateGo f m = MultiRecord.validateGo g m := by
  intro f
  induction f with
  | zero =>
    intro g m hf
    exact absurd hf (Nat.not_lt_zero _)
  | succ f ih =>
    intro g m hf hg
    cases g with
    | zero => exact absurd hg (Nat.not_lt_zero _)
    | succ g =>
      unfold MultiRecord.validateGo
      match hnext : MultiRecord.next m with
      | (none, m2) => simp only [hnext]
      | (some (Except.error e), m2) => simp only [hnext]
      | (some (Except.ok it), m2) =>
        simp only [hnext]
        have hdec : m2.remaining < m.remaining := MultiRecord.next_ok_remaining hnext
        exact ih g m2 (by omega) (by omega)

/-- C10 amended: each call to `next` either returns `None` with the state
unchanged, or reports a corruption error (upon which the validation loop of
`MultiRecord::new` stops at once), or yields an item and strictly decreases
the number of remaining undecoded bytes; consequently the validation loop
reaches its result within `buffer.length + 1` iterations on every input —
its value is the same under any larger fuel — so `MultiRecord::new` cannot
run forever. -/
theorem C10_next_progress_and_validate_terminates :
    (∀ m : MultiRecord,
      ((MultiRecord.next m).1 = none ∧ (MultiRecord.next m).2 = m) ∨
      (∃ e, (MultiRecord.next m).1 = some (Except.error e)) ∨
      ((∃ it, (MultiRecord.next m).1 = some (Except.ok it)) ∧
        (MultiRecord.next m).2.remaining < m.remaining)) ∧
    (∀ (buffer : List Nat) (fuel : Nat), buffer.length + 1 ≤ fuel →
      MultiRecord.validateGo fuel ⟨buffer, 0⟩ =
        MultiRecord.validateGo (buffer.length + 1) ⟨buffer, 0⟩) := by
  constructor
  · intro m
    unfold MultiRecord.next
    by_cases h1 : m.byte_offset = m.buffer.length
    · left
      rw [if_pos h1]
      exact ⟨rfl, rfl⟩
    · rw [if_neg h1]
      dsimp only
      by_cases h2 : (m.buffer.drop m.byte_offset).length < 12
      · right; left
        rw [if_pos h2]
        exact ⟨MultiRecordCorruption.mk, rfl⟩
      · rw [if_neg h2]
        by_cases h3 : ((m.buffer.drop m.byte_offset).drop 12).length <
            leDecode (((m.buffer.drop m.byte_offset).drop 8).take 4)
        · right; left
          rw [if_pos h3]
          exact ⟨MultiRecordCorruption.mk, rfl⟩
        · right; right
          rw [if_neg h3]
          refine ⟨⟨_, rfl⟩, ?_⟩
          unfold MultiRecord.remaining
          simp only [List.length_drop] at h2 h3
          dsimp only
          omega
  · intro buffer fuel hfuel
    apply MultiRecord.validateGo_congr
    · show MultiRecord.remaining ⟨buffer, 0⟩ < fuel
      unfold MultiRecord.remaining
      dsimp only
      omega
    · unfold MultiRecord.remaining
      dsimp only
      omega

/-- Witness for C10's fuel-independence part at the empty buffer. -/
theorem C10_witness :
    ([] : List Nat).length + 1 ≤ 2 ∧
    MultiRecord.validateGo 2 ⟨[], 0⟩ =
      MultiRecord.validateGo (([] : List Nat).length + 1) ⟨[], 0⟩ :=
  ⟨by decide, C10_next_progress_and_validate_terminates.2 [] 2 (by decide)⟩

/-! ### C9: frames are confined to one block -/

theorem isEmpty_false_of_length_pos {α : Type} {l : List α} (h : 0 < l.length) :
    l.isEmpty = false := by
  cases l with
  | nil => simp at h
  | cons a t => rfl

theorem Header.serializeBytes_length (h : Header) :
    h.serializeBytes.length = HEADER_LEN := by
  simp [Header.serializeBytes, leBytes_length, HEADER_LEN]

theorem BlockWriterState.write_eq_some {st : BlockWriterState} {buf : List Nat}
    (hne : buf.isEmpty = false)
    (hle : buf.length ≤ st.num_bytes_remaining_in_block) :
    st.write buf = some ⟨st.offset + buf.length, st.written ++ [(st.offset, buf)]⟩ := by
  unfold BlockWriterState.write
  rw [if_neg (by simp [hne]), if_pos hle]

/-- C9: whenever the payload obeys `max_writable_frame_length`,
`write_frame` succeeds (both block-level write assertions hold), the
payload is strictly shorter than a block, the frame — 7-byte header plus
payload — is written contiguously at `frameStart` and lies entirely within
a single 32768-byte block, and when fewer than `HEADER_LEN` bytes remained
in the block they are filled with zero bytes first. -/
theorem C9_frames_confined (s : BlockWriterState) (frame_type : FrameType)
    (payload : List Nat)
    (hlen : payload.length ≤ max_writable_frame_length s) :
    payload.length < BLOCK_NUM_BYTES ∧
    write_frame s frame_type payload =
      some ⟨frameStart s + (HEADER_LEN + payload.length),
        s.written ++
          (if s.num_bytes_remaining_in_block < HEADER_LEN then
            [(s.offset, List.replicate s.num_bytes_remaining_in_block 0)]
          else []) ++
          [(frameStart s,
            (Header.for_payload frame_type payload).serializeBytes ++ payload)]⟩ ∧
    frameStart s % BLOCK_NUM_BYTES + (HEADER_LEN + payload.length) ≤ BLOCK_NUM_BYTES := by
  have hB : BLOCK_NUM_BYTES = 32768 := rfl
  have hH : HEADER_LEN = 7 := rfl
  have hmod : s.offset % BLOCK_NUM_BYTES < BLOCK_NUM_BYTES := Nat.mod_lt _ (by omega)
  have hremeq : s.num_bytes_remaining_in_block =
      BLOCK_NUM_BYTES - s.offset % BLOCK_NUM_BYTES := rfl
  have hframe_len : ((Header.for_payload frame_type payload).serializeBytes ++
      payload).length = HEADER_LEN + payload.length := by
    simp [Header.serializeBytes_length]
  have hframe_ne : ((Header.for_payload frame_type payload).serializeBytes ++
      payload).isEmpty = false := by
    apply isEmpty_false_of_length_pos
    rw [hframe_len]
    omega
  by_cases hpad : s.num_bytes_remaining_in_block < HEADER_LEN
  · -- the padding case: fewer than 7 bytes remain, fill them with zeros
    have hmax : max_writable_frame_length s = BLOCK_NUM_BYTES - HEADER_LEN := by
      unfold max_writable_frame_length
      rw [if_neg (by omega)]
    rw [hmax] at hlen
    have hrempos : 0 < s.num_bytes_remaining_in_block := by
      rw [hremeq]
      omega
    have hpadne : (List.replicate s.num_bytes_remaining_in_block 0).isEmpty = false := by
      apply isEmpty_false_of_length_pos
      simp [hrempos]
    have hstep1 : s.write (List.replicate s.num_bytes_remaining_in_block 0) =
        some ⟨s.offset + s.num_bytes_remaining_in_block,
          s.written ++ [(s.offset, List.replicate s.num_bytes_remaining_in_block 0)]⟩ := by
      rw [BlockWriterState.write_eq_some hpadne (by simp)]
      simp
    have hmod0 : (s.offset + s.num_bytes_remaining_in_block) % BLOCK_NUM_BYTES = 0 := by
      have hdm := Nat.div_add_mod s.offset BLOCK_NUM_BYTES
      have hsplit : s.offset + s.num_bytes_remaining_in_block =
          BLOCK_NUM_BYTES * (s.offset / BLOCK_NUM_BYTES) + BLOCK_NUM_BYTES := by
        rw [hremeq]
        omega
      rw [hsplit, Nat.add_mod, Nat.mul_mod_right, Nat.mod_self]
      simp
    have hrem1 : ∀ w : List (Nat × List Nat),
        (⟨s.offset + s.num_bytes_remaining_in_block, w⟩ :
          BlockWriterState).num_bytes_remaining_in_block = BLOCK_NUM_BYTES := by
      intro w
      show BLOCK_NUM_BYTES -
        (s.offset + s.num_bytes_remaining_in_block) % BLOCK_NUM_BYTES = BLOCK_NUM_BYTES
      rw [hmod0]
      omega
    have hfs : frameStart s = s.offset + s.num_bytes_remaining_in_block := by
      unfold frameStart
      rw [if_pos hpad]
    have hcap2 : ((Header.for_payload frame_type payload).serializeBytes ++
        payload).length ≤
        (⟨s.offset + s.num_bytes_remaining_in_block,
          s.written ++ [(s.offset, List.replicate s.num_bytes_remaining_in_block 0)]⟩ :
          BlockWriterState).num_bytes_remaining_in_block := by
      rw [hrem1, hframe_len]
      omega
    refine ⟨by omega, ?_, ?_⟩
    · unfold write_frame
      dsimp only
      rw [if_pos hpad, hstep1]
      dsimp only
      rw [BlockWriterState.write_eq_some hframe_ne hcap2, hfs, hframe_len, if_pos hpad]
    · rw [hfs, hmod0]
      omega
  · -- no padding: at least 7 bytes remain in the current block
    have hmax : max_writable_frame_length s =
        s.num_bytes_remaining_in_block - HEADER_LEN := by
      unfold max_writable_frame_length
      rw [if_pos (by omega)]
    rw [hmax] at hlen
    have hfs : frameStart s = s.offset := by
      unfold frameStart
      rw [if_neg hpad]
    have hcap : ((Header.for_payload frame_type payload).serializeBytes ++
        payload).length ≤ s.num_bytes_remaining_in_block := by
      rw [hframe_len]
      omega
    refine ⟨?_, ?_, ?_⟩
    · rw [hremeq] at hlen
      omega
    · unfold write_frame
      dsimp only
      rw [if_neg hpad]
      dsimp only
      rw [BlockWriterState.write_eq_some hframe_ne hcap, hfs, hframe_len, if_neg hpad]
      simp
    · rw [hfs]
      rw [hremeq] at hlen hpad
      omega

/-- Witness for C9 at the initial writer state with a 3-byte payload. -/
theorem C9_witness :
    ([1, 2, 3] : List Nat).length ≤ max_writable_frame_length ⟨0, []⟩ ∧
    (([1, 2, 3] : List Nat).length < BLOCK_NUM_BYTES ∧
      write_frame ⟨0, []⟩ FrameType.Full [1, 2, 3] =
        some ⟨frameStart ⟨0, []⟩ + (HEADER_LEN + ([1, 2, 3] : List Nat).length),
          ([] : List (Nat × List Nat)) ++
            (if BlockWriterState.num_bytes_remaining_in_block ⟨0, []⟩ < HEADER_LEN then
              [(0, List.replicate (BlockWriterState.num_bytes_remaining_in_block ⟨0, []⟩) 0)]
            else []) ++
            [(frameStart ⟨0, []⟩,
              (Header.for_payload FrameType.Full [1, 2, 3]).serializeBytes ++ [1, 2, 3])]⟩ ∧
      frameStart ⟨0, []⟩ % BLOCK_NUM_BYTES + (HEADER_LEN + ([1, 2, 3] : List Nat).length) ≤
        BLOCK_NUM_BYTES) :=
  ⟨by decide, C9_frames_confined ⟨0, []⟩ FrameType.Full [1, 2, 3] (by decide)⟩

/-! ### C3: when append returns None and what Some carries -/

theorem MultiRecord.next_at_end {buf : List Nat} {off : Nat} (h : off = buf.length) :
    MultiRecord.next ⟨buf, off⟩ = (none, ⟨buf, off⟩) := by
  unfold MultiRecord.next
  dsimp only
  rw [if_pos h]

theorem pow_256_eq_pow_2 : ((256 : Nat) ^ 8 = 2 ^ 64) ∧ ((256 : Nat) ^ 4 = 2 ^ 32) := by
  norm_num

theorem MultiRecord.next_of_item {buf : List Nat} {off : Nat} {p : List Nat}
    {position : Nat} (rest : List Nat)
    (hdrop : buf.drop off = leBytes 8 position ++ (leBytes 4 p.length ++ (p ++ rest)))
    (hpos : position < 2 ^ 64) (hlen : p.length < 2 ^ 32) :
    MultiRecord.next ⟨buf, off⟩ =
      (some (Except.ok (position, p)), ⟨buf, off + 12 + p.length⟩) := by
  have hslice_len : (buf.drop off).length = 8 + (4 + (p.length + rest.length)) := by
    rw [hdrop]
    simp [leBytes_length]
  have hlendrop : (buf.drop off).length = buf.length - off := List.length_drop off buf
  have htake8 : (buf.drop off).take 8 = leBytes 8 position := by
    rw [hdrop]
    exact List.take_left' (leBytes_length 8 position)
  have hdrop8 : (buf.drop off).drop 8 = leBytes 4 p.length ++ (p ++ rest) := by
    rw [hdrop]
    exact List.drop_left' (leBytes_length 8 position)
  have htake4 : ((buf.drop off).drop 8).take 4 = leBytes 4 p.length := by
    rw [hdrop8]
    exact List.take_left' (leBytes_length 4 p.length)
  have hdrop12 : (buf.drop off).drop 12 = p ++ rest := by
    have h1 : (buf.drop off).drop 12 = ((buf.drop off).drop 8).drop 4 := by
      simp only [List.drop_drop]
    rw [h1, hdrop8]
    exact List.drop_left' (leBytes_length 4 p.length)
  unfold MultiRecord.next
  dsimp only
  rw [if_neg (by omega)]
  rw [if_neg (by omega)]
  rw [htake8, htake4, hdrop12]
  rw [leDecode_leBytes 8 position (by rw [pow_256_eq_pow_2.1]; exact hpos)]
  rw [leDecode_leBytes 4 p.length (by rw [pow_256_eq_pow_2.2]; exact hlen)]
  rw [if_neg (by simp)]
  rw [List.take_left]

theorem MultiRecord.serialize_length_count :
    ∀ (payloads : List (List Nat)) (position : Nat),
      payloads.length ≤ (MultiRecord.serialize payloads position).length := by
  intro payloads
  induction payloads with
  | nil => intro position; simp [MultiRecord.serialize]
  | cons p rest ih =>
    intro position
    have := ih (position + 1)
    simp only [MultiRecord.serialize, List.length_cons, List.length_append,
      leBytes_length]
    omega

theorem okItemsGo_serialize :
    ∀ (payloads : List (List Nat)) (position : Nat) (buf : List Nat) (off fuel : Nat),
      buf.drop off = MultiRecord.serialize payloads position →
      off ≤ buf.length →
      position + payloads.length ≤ 2 ^ 64 →
      (∀ p ∈ payloads, p.length < 2 ^ 32) →
      payloads.length < fuel →
      multiRecordOkItemsGo fuel ⟨buf, off⟩ = some (itemsOf payloads position) := by
  intro payloads
  induction payloads with
  | nil =>
    intro position buf off fuel hdrop hoff hbound hsz hfuel
    obtain ⟨f, rfl⟩ : ∃ f, fuel = f + 1 := ⟨fuel - 1, by omega⟩
    have hoffeq : off = buf.length := by
      have h1 := congrArg List.length hdrop
      simp only [MultiRecord.serialize, List.length_drop, List.length_nil] at h1
      omega
    unfold multiRecordOkItemsGo
    rw [MultiRecord.next_at_end hoffeq]
    rfl
  | cons p rest ih =>
    intro position buf off fuel hdrop hoff hbound hsz hfuel
    obtain ⟨f, rfl⟩ : ∃ f, fuel = f + 1 := ⟨fuel - 1, by omega⟩
    simp only [MultiRecord.serialize] at hdrop
    have hpos : position < 2 ^ 64 := by
      simp only [List.length_cons] at hbound
      omega
    have hlenp : p.length < 2 ^ 32 := hsz p (List.mem_cons_self p rest)
    have hnext := MultiRecord.next_of_item (MultiRecord.serialize rest (position + 1))
      hdrop hpos hlenp
    have hslice_len : (buf.drop off).length =
        8 + (4 + (p.length + (MultiRecord.serialize rest (position + 1)).length)) := by
      rw [hdrop]
      simp [leBytes_length]
    have hlendrop : (buf.drop off).length = buf.length - off := List.length_drop off buf
    have hdrop2 : buf.drop (off + 12 + p.length) =
        MultiRecord.serialize rest (position + 1) := by
      have h1 : buf.drop (off + 12 + p.length) = ((buf.drop off).drop 8).drop (4 + p.length) := by
        simp only [List.drop_drop]
        congr 1
        omega
      have hdrop8 : (buf.drop off).drop 8 =
          leBytes 4 p.length ++ (p ++ MultiRecord.serialize rest (position + 1)) := by
        rw [hdrop]
        exact List.drop_left' (leBytes_length 8 position)
      rw [h1, hdrop8]
      have h2 : (leBytes 4 p.length ++ p).length = 4 + p.length := by
        simp [leBytes_length]
      calc ((leBytes 4 p.length ++ (p ++ MultiRecord.serialize rest (position + 1)))).drop
            (4 + p.length)
          = (((leBytes 4 p.length ++ p) ++ MultiRecord.serialize rest (position + 1))).drop
            (4 + p.length) := by rw [List.append_assoc]
        _ = MultiRecord.serialize rest (position + 1) := List.drop_left' h2
    unfold multiRecordOkItemsGo
    rw [hnext]
    dsimp only
    rw [ih (position + 1) buf (off + 12 + p.length) f hdrop2
      (by omega)
      (by simp only [List.length_cons] at hbound; omega)
      (fun q hmem => hsz q (List.mem_cons_of_mem p hmem))
      (by simp only [List.length_cons] at hfuel; omega)]
    simp [itemsOf]

theorem memAppendLoop_ok_last :
    ∀ (items : List (Nat × List Nat)) (st : MultiRecordLogState) (queue : String)
      (file : Nat) (max_position : Nat) (v : Option Nat),
      (MultiRecordLog.memAppendLoop st queue file items max_position).2 = Except.ok v →
      v = some ((items.map Prod.fst).getLastD max_position) := by
  intro items
  induction items with
  | nil =>
    intro st queue file max_position v h
    unfold MultiRecordLog.memAppendLoop at h
    dsimp only at h
    simp only [Except.ok.injEq] at h
    rw [← h]
    rfl
  | cons it rest ih =>
    intro st queue file max_position v h
    obtain ⟨position, payload⟩ := it
    unfold MultiRecordLog.memAppendLoop at h
    match happ : MemQueues.append_record st.queues queue file position payload with
    | Except.error e =>
      rw [happ] at h
      simp at h
    | Except.ok queues2 =>
      rw [happ] at h
      dsimp only at h
      have := ih _ _ _ _ _ h
      rw [this]
      simp only [List.map_cons, List.getLastD_cons]

theorem itemsOf_map_fst_getLastD :
    ∀ (payloads : List (List Nat)) (position x : Nat), payloads ≠ [] →
      ((itemsOf payloads position).map Prod.fst).getLastD x =
        position + (payloads.length - 1) := by
  intro payloads
  induction payloads with
  | nil =>
    intro position x h
    exact absurd rfl h
  | cons p rest ih =>
    intro position x h
    cases rest with
    | nil => simp [itemsOf]
    | cons q rest2 =>
      have hih := ih (position + 1) position (by simp)
      simp only [itemsOf, List.map_cons, List.getLastD_cons, List.length_cons] at hih ⊢
      omega

theorem appendRecordsGo_nil (st : MultiRecordLogState) (queue : String)
    (position : Nat) :
    MultiRecordLog.appendRecordsGo st queue position [] = (st, Except.ok none) :=
  rfl

theorem appendRecordsGo_ok_some (st : MultiRecordLogState) (queue : String)
    (position : Nat) (payloads : List (List Nat))
    (hne : payloads ≠ [])
    (hbound : position + payloads.length ≤ 2 ^ 64)
    (hsz : ∀ p ∈ payloads, p.length < 2 ^ 32) :
    ∀ v, (MultiRecordLog.appendRecordsGo st queue position payloads).2 = Except.ok v →
      v = some (position + (payloads.length - 1)) := by
  intro v hv
  cases payloads with
  | nil => exact absurd rfl hne
  | cons p rest =>
    have hser_ne : (MultiRecord.serialize (p :: rest) position).isEmpty = false := rfl
    unfold MultiRecordLog.appendRecordsGo at hv
    dsimp only at hv
    rw [if_neg (by simp [hser_ne])] at hv
    have hitems : multiRecordOkItems ⟨MultiRecord.serialize (p :: rest) position, 0⟩ =
        some (itemsOf (p :: rest) position) := by
      unfold multiRecordOkItems
      exact okItemsGo_serialize (p :: rest) position _ 0 _ rfl (Nat.zero_le _) hbound hsz
        (by
          have := MultiRecord.serialize_length_count (p :: rest) position
          simp only [List.length_cons] at this ⊢
          omega)
    rw [hitems] at hv
    simp only [Option.getD_some] at hv
    have hlast := memAppendLoop_ok_last (itemsOf (p :: rest) position) _ queue
      st.current_file position v hv
    rw [hlast, itemsOf_map_fst_getLastD (p :: rest) position position (by simp)]

/-- C3: for an existing queue, whenever `append_records` returns `Ok v`:
`v` is `None` exactly when the caller supplied a position with
`position + 1 = next_position` (idempotent duplicate replay) or the batch
is empty (the encoded payload is empty); a `None` result leaves the whole
state — queues, wal and writer — unchanged; and in every other successful
case `v` is `Some p` with `p` the position of the last record appended,
i.e. the effective start position plus the batch size minus one. -/
theorem C3_append_none_iff (st : MultiRecordLogState) (queue : String)
    (position_opt : Option Nat) (payloads : List (List Nat)) (q : MemQueue)
    (hq : lookupFirst st.queues queue = some q)
    (hbound : position_opt.getD q.next_position + payloads.length ≤ 2 ^ 64)
    (hsz : ∀ p ∈ payloads, p.length < 2 ^ 32) :
    ∀ v, (MultiRecordLog.append_records st queue position_opt payloads).2 = Except.ok v →
      ((v = none ↔
          (∃ p0, position_opt = some p0 ∧ p0 + 1 = q.next_position) ∨ payloads = []) ∧
        (v = none → (MultiRecordLog.append_records st queue position_opt payloads).1 = st) ∧
        (∀ pl, v = some pl →
          payloads ≠ [] ∧
            pl = position_opt.getD q.next_position + (payloads.length - 1))) := by
  intro v hv
  cases position_opt with
  | none =>
    have hA : MultiRecordLog.append_records st queue none payloads =
        MultiRecordLog.appendRecordsGo st queue q.next_position payloads := by
      unfold MultiRecordLog.append_records
      rw [hq]
    rw [hA] at hv
    by_cases hpe : payloads = []
    · subst hpe
      rw [appendRecordsGo_nil] at hv
      simp only [Except.ok.injEq] at hv
      refine ⟨?_, ?_, ?_⟩
      · rw [← hv]
        exact iff_of_true rfl (Or.inr rfl)
      · intro _
        rw [hA, appendRecordsGo_nil]
      · intro pl hpl
        rw [← hv] at hpl
        simp at hpl
    · have hsome : v = some (q.next_position + (payloads.length - 1)) :=
        appendRecordsGo_ok_some st queue q.next_position payloads hpe hbound hsz v hv
    -- the successful non-empty batch: Some of the last appended position
      refine ⟨?_, ?_, ?_⟩
      · rw [hsome]
        apply iff_of_false (by simp)
        rintro (⟨p0, hp0, -⟩ | hnil)
        · simp at hp0
        · exact hpe hnil
      · intro h0
        rw [hsome] at h0
        simp at h0
      · intro pl hpl
        rw [hsome] at hpl
        simp only [Option.some.injEq] at hpl
        exact ⟨hpe, hpl.symm⟩
  | some position =>
    by_cases h1 : position + 1 = q.next_position
    · have hA : MultiRecordLog.append_records st queue (some position) payloads =
          (st, Except.ok none) := by
        unfold MultiRecordLog.append_records
        rw [hq]
        dsimp only
        rw [if_pos h1]
      rw [hA] at hv
      simp only [Except.ok.injEq] at hv
      refine ⟨?_, ?_, ?_⟩
      · rw [← hv]
        exact iff_of_true rfl (Or.inl ⟨position, rfl, h1⟩)
      · intro _
        rw [hA]
      · intro pl hpl
        rw [← hv] at hpl
        simp at hpl
    · by_cases h2 : position < q.next_position
      · have hA : MultiRecordLog.append_records st queue (some position) payloads =
            (st, Except.error AppendError.Past) := by
          unfold MultiRecordLog.append_records
          rw [hq]
          dsimp only
          rw [if_neg h1, if_pos h2]
        rw [hA] at hv
        exact absurd hv (by simp)
      · have hA : MultiRecordLog.append_records st queue (some position) payloads =
            MultiRecordLog.appendRecordsGo st queue position payloads := by
          unfold MultiRecordLog.append_records
          rw [hq]
          dsimp only
          rw [if_neg h1, if_neg h2]
        rw [hA] at hv
        by_cases hpe : payloads = []
        · subst hpe
          rw [appendRecordsGo_nil] at hv
          simp only [Except.ok.injEq] at hv
          refine ⟨?_, ?_, ?_⟩
          · rw [← hv]
            exact iff_of_true rfl (Or.inr rfl)
          · intro _
            rw [hA, appendRecordsGo_nil]
          · intro pl hpl
            rw [← hv] at hpl
            simp at hpl
        · have hsome : v = some (position + (payloads.length - 1)) :=
            appendRecordsGo_ok_some st queue position payloads hpe hbound hsz v hv
          refine ⟨?_, ?_, ?_⟩
          · rw [hsome]
            apply iff_of_false (by simp)
            rintro (⟨p0, hp0, hnext⟩ | hnil)
            · simp only [Option.some.injEq] at hp0
              subst hp0
              exact h1 hnext
            · exact hpe hnil
          · intro h0
            rw [hsome] at h0
            simp at h0
          · intro pl hpl
            rw [hsome] at hpl
            simp only [Option.some.injEq] at hpl
            exact ⟨hpe, hpl.symm⟩

/-- Witness for C3: appending the batch of payloads 1 and 2 to a fresh
queue returns position 1, the position of the last record appended. -/
theorem C3_witness :
    lookupFirst freshState.queues ("w") = some freshQueue ∧
    Option.getD (none : Option Nat) freshQueue.next_position +
      ([[1], [2]] : List (List Nat)).length ≤ 2 ^ 64 ∧
    (∀ p ∈ ([[1], [2]] : List (List Nat)), p.length < 2 ^ 32) ∧
    (([[1], [2]] : List (List Nat)) ≠ [] ∧
      1 = Option.getD (none : Option Nat) freshQueue.next_position +
        (([[1], [2]] : List (List Nat)).length - 1)) := by
  refine ⟨by decide, by decide, by decide, ?_⟩
  exact ((C3_append_none_iff freshState ("w") none [[1], [2]] freshQueue (by decide)
    (by decide) (by decide)) (some 1) (by decide)).2.2 1 rfl

/-! ### C8: serialize then deserialize is the identity -/

theorem RecordType.try_from_to_u8 (t : RecordType) :
    RecordType.try_from t.to_u8 = some t := by
  cases t <;> rfl

theorem deserialize_serializeRecord (t : RecordType) (position : Nat)
    (queue payload : List Nat)
    (hq : queue.length ≤ 65535) (hu : utf8Valid queue = true)
    (hp : position < 2 ^ 64) :
    MultiPlexedRecord.deserialize (serializeRecord t position queue payload) =
      (match t with
       | RecordType.AppendRecords =>
         (match MultiRecord.new payload with
          | Except.ok records =>
            some (MultiPlexedRecord.AppendRecords queue position records)
          | Except.error _ => none)
       | RecordType.Truncate => some (MultiPlexedRecord.Truncate queue position)
       | RecordType.Touch => some (MultiPlexedRecord.RecordPosition queue position)
       | RecordType.DeleteQueue =>
         some (MultiPlexedRecord.DeleteQueue queue position)) := by
  have hassoc : serializeRecord t position queue payload =
      (t.to_u8 :: (leBytes 8 position ++ leBytes 2 queue.length)) ++ (queue ++ payload) := by
    simp [serializeRecord]
  have hHlen : (t.to_u8 :: (leBytes 8 position ++ leBytes 2 queue.length)).length = 11 := by
    simp [leBytes_length]
  have hlen_total : (serializeRecord t position queue payload).length =
      11 + (queue.length + payload.length) := by
    rw [hassoc, List.length_append, hHlen, List.length_append]
  have htake : (serializeRecord t position queue payload).take 11 =
      t.to_u8 :: (leBytes 8 position ++ leBytes 2 queue.length) := by
    rw [hassoc]
    exact List.take_left' hHlen
  have hdropb : (serializeRecord t position queue payload).drop 11 = queue ++ payload := by
    rw [hassoc]
    exact List.drop_left' hHlen
  have htake8 :
      ((t.to_u8 :: (leBytes 8 position ++ leBytes 2 queue.length)).drop 1).take 8 =
        leBytes 8 position := by
    show (leBytes 8 position ++ leBytes 2 queue.length).take 8 = leBytes 8 position
    exact List.take_left' (leBytes_length 8 position)
  have hdrop9 : (t.to_u8 :: (leBytes 8 position ++ leBytes 2 queue.length)).drop 9 =
      leBytes 2 queue.length := by
    show (leBytes 8 position ++ leBytes 2 queue.length).drop 8 = leBytes 2 queue.length
    exact List.drop_left' (leBytes_length 8 position)
  have hpdec : leDecode (leBytes 8 position) = position :=
    leDecode_leBytes 8 position (by rw [pow_256_eq_pow_2.1]; exact hp)
  have hqdec : leDecode (leBytes 2 queue.length) = queue.length :=
    leDecode_leBytes 2 queue.length
      (by
        have h2 : (256 : Nat) ^ 2 = 65536 := by norm_num
        omega)
  have hblen : ¬ ((queue ++ payload).length < queue.length) := by
    simp only [List.length_append]
    omega
  unfold MultiPlexedRecord.deserialize
  rw [if_neg (by omega)]
  rw [htake, hdropb]
  simp only [List.headD_cons, RecordType.try_from_to_u8, htake8, hdrop9, hpdec, hqdec,
    if_neg hblen, List.take_left, List.drop_left, if_pos hu]

theorem MultiRecord.new_ok_eq {buffer : List Nat} {m : MultiRecord}
    (h : MultiRecord.new buffer = Except.ok m) : m = ⟨buffer, 0⟩ := by
  unfold MultiRecord.new at h
  match hv : MultiRecord.validateGo (buffer.length + 1) ⟨buffer, 0⟩ with
  | Except.ok () =>
    rw [hv] at h
    simp only [Except.ok.injEq] at h
    exact h.symm
  | Except.error e =>
    rw [hv] at h
    simp at h

/-- C8: serializing any well-formed `MultiPlexedRecord` — queue name a
valid UTF-8 string of at most 65535 bytes, u64 position, and (for
`AppendRecords`) a validating sub-record buffer at iteration offset 0 —
and then deserializing the resulting bytes yields exactly the same
structure. -/
theorem C8_roundtrip (r : MultiPlexedRecord) (h : r.wf = true) :
    MultiPlexedRecord.deserialize (MultiPlexedRecord.serialize r) = some r := by
  cases r with
  | AppendRecords queue position records =>
    obtain ⟨rbuf, roff⟩ := records
    simp only [MultiPlexedRecord.wf, Bool.and_eq_true, decide_eq_true_eq] at h
    obtain ⟨hq, hu, hp, hoff, hok⟩ := h
    subst hoff
    show MultiPlexedRecord.deserialize
        (serializeRecord RecordType.AppendRecords position queue rbuf) = _
    rw [deserialize_serializeRecord RecordType.AppendRecords position queue rbuf hq hu hp]
    cases hnew : MultiRecord.new rbuf with
    | error e =>
      rw [hnew] at hok
      simp [Except.toOption] at hok
    | ok m2 =>
      simp only [hnew]
      rw [MultiRecord.new_ok_eq hnew]
  | Truncate queue truncate_end =>
    simp only [MultiPlexedRecord.wf, Bool.and_eq_true, decide_eq_true_eq] at h
    obtain ⟨hq, hu, hp⟩ := h
    show MultiPlexedRecord.deserialize
        (serializeRecord RecordType.Truncate truncate_end queue []) = _
    rw [deserialize_serializeRecord RecordType.Truncate truncate_end queue [] hq hu hp]
  | RecordPosition queue position =>
    simp only [MultiPlexedRecord.wf, Bool.and_eq_true, decide_eq_true_eq] at h
    obtain ⟨hq, hu, hp⟩ := h
    show MultiPlexedRecord.deserialize
        (serializeRecord RecordType.Touch position queue []) = _
    rw [deserialize_serializeRecord RecordType.Touch position queue [] hq hu hp]
  | DeleteQueue queue position =>
    simp only [MultiPlexedRecord.wf, Bool.and_eq_true, decide_eq_true_eq] at h
    obtain ⟨hq, hu, hp⟩ := h
    show MultiPlexedRecord.deserialize
        (serializeRecord RecordType.DeleteQueue position queue []) = _
    rw [deserialize_serializeRecord RecordType.DeleteQueue position queue [] hq hu hp]

/-- Witness for C8 at a concrete record: a RecordPosition for the one-byte
queue name a (byte 97) at position 7. -/
theorem C8_witness :
    MultiPlexedRecord.wf (MultiPlexedRecord.RecordPosition [97] 7) = true ∧
    MultiPlexedRecord.deserialize
        (MultiPlexedRecord.serialize (MultiPlexedRecord.RecordPosition [97] 7)) =
      some (MultiPlexedRecord.RecordPosition [97] 7) :=
  ⟨by decide, C8_roundtrip (MultiPlexedRecord.RecordPosition [97] 7) (by decide)⟩
